import Mathlib

/-!
Shallow embedding of the sisyphus-font repository, covering
fontscrape/fonts.py (Font, FontResult, FontLibrary lookup methods) and
fontscrape/subparse.py (SubParse style and dialogue extraction), together
with theorems about the embedded code.

Conventions of the embedding:
- The external fuzzywuzzy similarity scorer (fuzz.ratio) is an external
  capability; it is kept abstract as a function parameter of type SimFn.
- Fallible Python code is embedded in the Except PyErr monad; the PyErr
  constructors name the Python exception class raised.
- Python lists become Lean lists, Python str becomes String; string
  manipulation helpers (split, strip, lower, capitalize, join) are
  re-implemented structurally over the character list so that every
  definition is executable and kernel-reducible.
- CPython set iteration order is an implementation detail; set unions and
  differences are embedded with a deterministic first-occurrence order, and
  theorems about them are stated up to membership.
-/

/-- Python runtime errors that the embedded code can raise. -/
inductive PyErr where
  | indexError : PyErr
  | attributeError : String → PyErr
  | typeError : String → PyErr
  | nameError : String → PyErr
deriving DecidableEq, Repr

instance {ε α : Type} [DecidableEq ε] [DecidableEq α] : DecidableEq (Except ε α) := fun a b =>
  match a, b with
  | .ok x, .ok y => decidable_of_iff (x = y) (by simp)
  | .error x, .error y => decidable_of_iff (x = y) (by simp)
  | .ok _, .error _ => isFalse (by simp)
  | .error _, .ok _ => isFalse (by simp)

/-- Models Python list indexing l[i], which raises IndexError out of range. -/
def pyGet {α : Type} (l : List α) (i : Nat) : Except PyErr α :=
  match l.get? i with
  | some a => Except.ok a
  | none => Except.error PyErr.indexError

/-- Models Python str.lower (ASCII behaviour). -/
def pyLower (s : String) : String := String.mk (s.data.map Char.toLower)

/-- Models Python sep.join(pieces) for string pieces. -/
def pyJoin (sep : String) (l : List String) : String :=
  String.mk (List.intercalate sep.data (l.map String.data))

/-- Models Python str.capitalize: first character upper-cased, the rest
lower-cased. -/
def pyCapitalize (s : String) : String :=
  match s.data with
  | [] => ""
  | c :: rest => String.mk (c.toUpper :: rest.map Char.toLower)

/-- Models tok.replace("semi", "") on an already lower-cased token:
removes every occurrence of the substring semi, left to right. -/
def removeSemi : List Char → List Char
  | 's' :: 'e' :: 'm' :: 'i' :: rest => removeSemi rest
  | c :: rest => c :: removeSemi rest
  | [] => []

/-- Models Python s.split(sep) for a one-character separator: keeps empty
pieces, and always returns at least one piece. -/
def pySplitChars (sep : Char) : List Char → List (List Char)
  | [] => [[]]
  | c :: rest =>
    if c = sep then [] :: pySplitChars sep rest
    else
      match pySplitChars sep rest with
      | [] => [[c]]
      | p :: ps => (c :: p) :: ps

/-- Models Python str.strip on a character list. -/
def pyStripChars (l : List Char) : List Char :=
  ((l.dropWhile Char.isWhitespace).reverse.dropWhile Char.isWhitespace).reverse

/-- Parses a run of decimal digit characters, as Python int does on the
digit-only capture groups of subparse.py. -/
def digitsToNat (l : List Char) : Nat :=
  l.foldl (fun n c => n * 10 + (c.toNat - 48)) 0

/-- Font record (fonts.py, class Font): one processed font file. -/
structure Font where
  family : String
  subfamily : List String
  full_name : String
  font_path : String
deriving DecidableEq, Repr

/-- Python attribute values that can live on a Font instance. -/
inductive PyVal where
  | str : String → PyVal
  | strList : List String → PyVal
deriving DecidableEq, Repr

/-- Models getattr on a Font instance: the dataclass declares exactly the
fields family, subfamily, full_name and font_path; any other attribute name
raises AttributeError. -/
def Font.getattr (f : Font) (a : String) : Except PyErr PyVal :=
  if a = "family" then Except.ok (PyVal.str f.family)
  else if a = "subfamily" then Except.ok (PyVal.strList f.subfamily)
  else if a = "full_name" then Except.ok (PyVal.str f.full_name)
  else if a = "font_path" then Except.ok (PyVal.str f.font_path)
  else Except.error (PyErr.attributeError a)

/-- Embeds Font.eq (dunder eq in fonts.py): it reads self.full_path and
other.full_path, attributes that the dataclass does not define. -/
def Font.eq (a b : Font) : Except PyErr Bool := do
  let x ← Font.getattr a "full_path"
  let y ← Font.getattr b "full_path"
  Except.ok (x == y)

/-- Embeds the Font hash method: hash(self.full_name). -/
def Font.hash (f : Font) : UInt64 := String.hash f.full_name

/-- FontResult record (fonts.py): the outcome of one font comparison. -/
structure FontResult where
  font : Font
  family_match_score : Nat
  subfamily_match_score : Nat
  downgrade : Bool := false
deriving DecidableEq, Repr

/-- Comparison key used by the FontResult dunder comparison methods:
family_match_score * 1000 + subfamily_match_score. -/
def FontResult.totalScore (r : FontResult) : Nat :=
  r.family_match_score * 1000 + r.subfamily_match_score

/-- Embeds the FontResult lt comparison. -/
def FontResult.ltB (a b : FontResult) : Bool := decide (a.totalScore < b.totalScore)

/-- Embeds the FontResult le comparison. -/
def FontResult.leB (a b : FontResult) : Bool := decide (a.totalScore ≤ b.totalScore)

/-- Embeds the FontResult gt comparison. -/
def FontResult.gtB (a b : FontResult) : Bool := decide (b.totalScore < a.totalScore)

/-- Embeds the FontResult ge comparison. -/
def FontResult.geB (a b : FontResult) : Bool := decide (b.totalScore ≤ a.totalScore)

/-- Embeds the FontResult eq comparison. -/
def FontResult.eqB (a b : FontResult) : Bool := decide (a.totalScore = b.totalScore)

/-- Embeds the FontResult ne comparison. -/
def FontResult.neB (a b : FontResult) : Bool := decide (a.totalScore ≠ b.totalScore)

/-- Ordering relation on FontResult induced by the comparison key; this is
what Python sorted uses through the dunder lt method. -/
def frLE (a b : FontResult) : Prop := a.totalScore ≤ b.totalScore

instance : DecidableRel frLE := fun a b => Nat.decLe a.totalScore b.totalScore

instance : IsTotal FontResult frLE := ⟨fun a b => Nat.le_total a.totalScore b.totalScore⟩

instance : IsTrans FontResult frLE := ⟨fun _ _ _ h h2 => Nat.le_trans h h2⟩

/-- Descending ordering used by sorted(results, reverse=True). -/
def frGE (a b : FontResult) : Prop := b.totalScore ≤ a.totalScore

instance : DecidableRel frGE := fun a b => Nat.decLe b.totalScore a.totalScore

instance : IsTotal FontResult frGE := ⟨fun a b => Nat.le_total b.totalScore a.totalScore⟩

instance : IsTrans FontResult frGE := ⟨fun _ _ _ h h2 => Nat.le_trans h2 h⟩

/-- Models sorted(results)[-1] guarded by try/except IndexError: the last
element of the stable ascending sort, or none on the empty list. Python
sorted is the unique stable ascending sort with respect to the dunder lt
order, which insertionSort with frLE also computes. -/
def pySortedLast (l : List FontResult) : Option FontResult :=
  (List.insertionSort frLE l).getLast?

/-- Models sorted(results, reverse=True): the stable descending sort. -/
def pySortedDesc (l : List FontResult) : List FontResult :=
  List.insertionSort frGE l

/-- Similarity scorer interface, the external fuzz dot ratio capability. -/
abbrev SimFn := String → String → Nat

/-- Union type of the subfamily argument accepted by the find methods:
Union of list of str and str. -/
inductive SubfamilyArg where
  | list : List String → SubfamilyArg
  | str : String → SubfamilyArg
deriving DecidableEq, Repr

/-- Filter removing the tokens bold and italic, as the ignore_regular
branch of find_font_by_families does on both comparison sides. -/
def stripBI (l : List String) : List String :=
  l.filter (fun i => !(i == "bold" || i == "italic"))

/-- Per-font values computed by the loop body of find_font_by_families when
ignore_regular is set: the font, its family score against the requested
family, and its subfamily score against the stripped joined request
subfamily. The list also tracks what the Python loop variables hold after
the loop: its last element, if any. -/
def famScores (fuzz : SimFn) (library : List Font) (family subfamilyJ : String) :
    List (Font × Nat × Nat) :=
  library.map (fun font =>
    (font, fuzz family font.family,
      fuzz subfamilyJ (pyJoin " " (stripBI font.subfamily))))

/-- Candidate list built by the loop of find_font_by_families when
ignore_regular is set: every font whose family score clears the threshold,
carrying the computed subfamily score. -/
def famCandidates (fuzz : SimFn) (library : List Font) (family : String)
    (subfamily : List String) (threshold : Nat) : List FontResult :=
  (famScores fuzz library family (pyJoin " " (stripBI subfamily))).filterMap (fun p =>
    if threshold ≤ p.2.1 then some (FontResult.mk p.1 p.2.1 p.2.2 false) else none)

/-- Result list of find_font_by_families after the downgrade block: when
the loop produced nothing and downgrading is allowed, the block re-reads
the loop variables of the last iteration (NameError on an empty library)
and appends a downgraded result for the last font when its recomputed
family score clears the threshold (which the loop itself would already
have caught, so this appends nothing in practice). -/
def famResolved (fuzz : SimFn) (library : List Font) (family : String)
    (subfamily : List String) (downgrade : Bool) (threshold : Nat) :
    Except PyErr (List FontResult) :=
  if (famCandidates fuzz library family subfamily threshold).isEmpty && downgrade then
    match (famScores fuzz library family (pyJoin " " (stripBI subfamily))).getLast? with
    | none => Except.error (PyErr.nameError "font")
    | some p =>
      Except.ok (if threshold ≤ fuzz family p.1.family then
        famCandidates fuzz library family subfamily threshold ++
          [FontResult.mk p.1 (fuzz family p.1.family) p.2.2 true]
      else famCandidates fuzz library family subfamily threshold)
  else Except.ok (famCandidates fuzz library family subfamily threshold)

/-- Embeds FontLibrary.find_font_by_families. The whole matching body of
the source sits under the line if ignore_regular, so with ignore_regular
false the function falls through and returns None. A str subfamily is
wrapped in an extra list by the normalisation, after which lowering its
elements raises AttributeError. -/
def find_font_by_families (fuzz : SimFn) (library : List Font) (family : String)
    (subfamily0 : SubfamilyArg) (ignore_regular downgrade : Bool) (threshold : Nat) :
    Except PyErr (Option FontResult) := do
  let subfamily ← (match subfamily0 with
    | SubfamilyArg.str _ => Except.error (PyErr.attributeError "lower")
    | SubfamilyArg.list l => Except.ok l)
  if ignore_regular then
    let results ← famResolved fuzz library family subfamily downgrade threshold
    pure (pySortedLast results)
  else
    pure none

/-- Formats the capitalized space-joined subfamily used by the full-name
tiers. For a str argument the normalisation has produced a list whose
single element is a list of tokens, and calling capitalize on that element
raises AttributeError. -/
def capitalizeJoin : SubfamilyArg → Except PyErr String
  | SubfamilyArg.list l => Except.ok (pyJoin " " (l.map pyCapitalize))
  | SubfamilyArg.str _ => Except.error (PyErr.attributeError "capitalize")

/-- Models the warning-path line joining the subfamily with a comma: for a
str argument the wrapped inner list is not a str, so str.join raises
TypeError. -/
def joinCommaArg : SubfamilyArg → Except PyErr Unit
  | SubfamilyArg.list _ => Except.ok ()
  | SubfamilyArg.str _ => Except.error (PyErr.typeError "join")

/-- Tier one scan of find_font_by_full_name: compares the query built from
family and capitalized subfamily tokens, lower-cased, against each lowered
font full name. -/
def scanFullName1 (fuzz : SimFn) (family : String) (subfamily0 : SubfamilyArg)
    (threshold : Nat) : List Font → Except PyErr (List FontResult)
  | [] => Except.ok []
  | font :: rest => do
    let sfmt ← capitalizeJoin subfamily0
    let full_name := family ++ " " ++ sfmt
    let score := fuzz (pyLower full_name) (pyLower font.full_name)
    let others ← scanFullName1 fuzz family subfamily0 threshold rest
    Except.ok ((if threshold ≤ score then [FontResult.mk font score 0 false] else []) ++ others)

/-- Normalised font full name used by tier two: lower-cased, split on
spaces, the substring semi removed from every token, re-joined. -/
def semiStrip (s : String) : String :=
  String.mk (List.intercalate [' ']
    ((pySplitChars ' ' ((pyLower s).data)).map removeSemi))

/-- Tier two scan of find_font_by_full_name: the same query compared against
the semi-stripped font full name. -/
def scanFullName2 (fuzz : SimFn) (family : String) (subfamily0 : SubfamilyArg)
    (threshold : Nat) : List Font → Except PyErr (List FontResult)
  | [] => Except.ok []
  | font :: rest => do
    let ffull_name := semiStrip font.full_name
    let sfmt ← capitalizeJoin subfamily0
    let full_name := family ++ " " ++ sfmt
    let score := fuzz (pyLower full_name) ffull_name
    let others ← scanFullName2 fuzz family subfamily0 threshold rest
    Except.ok ((if threshold ≤ score then [FontResult.mk font score 0 false] else []) ++ others)

/-- Tier one candidate list for a list subfamily argument. -/
def fullNameCandidates1 (fuzz : SimFn) (library : List Font) (family : String)
    (subfamily : List String) (threshold : Nat) : List FontResult :=
  library.filterMap (fun font =>
    if threshold ≤ fuzz (pyLower (family ++ " " ++ pyJoin " " (subfamily.map pyCapitalize)))
        (pyLower font.full_name) then
      some (FontResult.mk font
        (fuzz (pyLower (family ++ " " ++ pyJoin " " (subfamily.map pyCapitalize)))
          (pyLower font.full_name)) 0 false)
    else none)

/-- Tier two candidate list for a list subfamily argument. -/
def fullNameCandidates2 (fuzz : SimFn) (library : List Font) (family : String)
    (subfamily : List String) (threshold : Nat) : List FontResult :=
  library.filterMap (fun font =>
    if threshold ≤ fuzz (pyLower (family ++ " " ++ pyJoin " " (subfamily.map pyCapitalize)))
        (semiStrip font.full_name) then
      some (FontResult.mk font
        (fuzz (pyLower (family ++ " " ++ pyJoin " " (subfamily.map pyCapitalize)))
          (semiStrip font.full_name)) 0 false)
    else none)

/-- Tier three (downgrade) candidate list: family alone against each
lowered font full name; matches are flagged downgrade with subfamily score
zero. This tier never touches the subfamily argument. -/
def fullNameCandidates3 (fuzz : SimFn) (library : List Font) (family : String)
    (threshold : Nat) : List FontResult :=
  library.filterMap (fun font =>
    if threshold ≤ fuzz (pyLower family) (pyLower font.full_name) then
      some (FontResult.mk font (fuzz (pyLower family) (pyLower font.full_name)) 0 true)
    else none)

/-- The candidate list the three-tier strategy ends up ranking for a list
subfamily argument. -/
def chosenFullName (fuzz : SimFn) (library : List Font) (family : String)
    (subfamily : List String) (downgrade : Bool) (threshold : Nat) : List FontResult :=
  if fullNameCandidates1 fuzz library family subfamily threshold ≠ [] then
    fullNameCandidates1 fuzz library family subfamily threshold
  else if fullNameCandidates2 fuzz library family subfamily threshold ≠ [] then
    fullNameCandidates2 fuzz library family subfamily threshold
  else if downgrade then fullNameCandidates3 fuzz library family threshold
  else []

/-- Embeds FontLibrary.find_font_by_full_name: three tiers, each attempted
only when the previous produced no result, then sorted(results)[-1] with
IndexError mapped to None, and the warning path touching the subfamily
argument again when nothing was found. -/
def find_font_by_full_name (fuzz : SimFn) (library : List Font) (family : String)
    (subfamily0 : SubfamilyArg) (downgrade : Bool) (threshold : Nat) :
    Except PyErr (Option FontResult) := do
  let results ← scanFullName1 fuzz family subfamily0 threshold library
  let results ← (if results.isEmpty then
      scanFullName2 fuzz family subfamily0 threshold library
    else Except.ok results)
  let results ← (if results.isEmpty && downgrade then
      Except.ok (fullNameCandidates3 fuzz library family threshold)
    else Except.ok results)
  match pySortedLast results with
  | some r => pure (some r)
  | none => do
    let _ ← joinCommaArg subfamily0
    pure none

/-- Embeds FontLibrary.find_font_by_family: every font whose family score
clears the threshold, sorted descending. -/
def find_font_by_family (fuzz : SimFn) (library : List Font) (family : String)
    (threshold : Nat) : List FontResult :=
  pySortedDesc (library.filterMap (fun font =>
    if threshold ≤ fuzz family font.family then
      some (FontResult.mk font (fuzz family font.family) 0 false)
    else none))

/-- SubFont record (subparse.py): one font requirement extracted from the
subtitle content. -/
structure SubFont where
  style : String
  family : String
  subfamily : List String
deriving DecidableEq, Repr

/-- Style lines of the document: lines starting with the literal marker. -/
def styleLines (content : List String) : List (List Char) :=
  (content.map String.data).filter (fun l => "Style: ".data.isPrefixOf l)

/-- Dialogue lines of the document: lines starting with the literal marker. -/
def dialogueLines (content : List String) : List (List Char) :=
  (content.map String.data).filter (fun l => "Dialogue: ".data.isPrefixOf l)

/-- Embeds the per-line body of process_style_section: split on the first
colon, take the second chunk, split on commas; field 0 stripped is the
style name, field 1 is the family, fields 7 and 8 holding the text -1 mark
bold and italic. Missing fields raise IndexError. -/
def parseStyleLine (line : List Char) : Except PyErr SubFont := do
  let seg ← pyGet (pySplitChars ':' line) 1
  let f0 ← pyGet (pySplitChars ',' seg) 0
  let f1 ← pyGet (pySplitChars ',' seg) 1
  let fb ← pyGet (pySplitChars ',' seg) 7
  let fi ← pyGet (pySplitChars ',' seg) 8
  let sub := (if fb = "-1".data then ["bold"] else []) ++
    (if fi = "-1".data then ["italic"] else [])
  Except.ok (SubFont.mk (String.mk (pyStripChars f0)) (String.mk f1) sub)

/-- Sequences the embedded per-element computations, stopping at the first
error, as the Python loop would. -/
def pyMapM {α β : Type} (f : α → Except PyErr β) : List α → Except PyErr (List β)
  | [] => Except.ok []
  | x :: xs => do
    let y ← f x
    let ys ← pyMapM f xs
    Except.ok (y :: ys)

/-- Monadic filter in the Except monad, keeping order and stopping at the
first error, as the pruning loop of process_style_section would. -/
def pyFilterM {α : Type} (f : α → Except PyErr Bool) : List α → Except PyErr (List α)
  | [] => Except.ok []
  | x :: xs => do
    let b ← f x
    let rest ← pyFilterM f xs
    Except.ok (if b then x :: rest else rest)

/-- Style records parsed from the style lines, in file order. -/
def rawStyles (content : List String) : Except PyErr (List SubFont) :=
  pyMapM parseStyleLine (styleLines content)

/-- Embeds the pruning check of process_style_section for one style: scan
the dialogue lines, read comma field 3 stripped, and report whether it
equals the style name; the scan raises IndexError on a dialogue line with
fewer than four comma fields reached before a match. -/
def findRef (r : SubFont) : List (List Char) → Except PyErr Bool
  | [] => Except.ok false
  | d :: rest => do
    let f3 ← pyGet (pySplitChars ',' d) 3
    if String.mk (pyStripChars f3) = r.style then Except.ok true else findRef r rest

/-- Embeds SubParse.process_style_section: parse every style line, then
keep, in file order, exactly the styles some dialogue line references. -/
def process_style_section (content : List String) : Except PyErr (List SubFont) := do
  let raw ← rawStyles content
  pyFilterM (fun r => findRef r (dialogueLines content)) raw

/-- Lazy capture of the font-name override: at a given suffix just after
the fn marker, take the shortest non-empty run of non-newline characters
ending right before a closing brace or backslash. -/
def lazyGo (acc : List Char) : List Char → Option (List Char)
  | [] => none
  | c :: rest =>
    if c = '\x7d' ∨ c = '\\' then some acc.reverse
    else if c = '\n' then none
    else lazyGo (c :: acc) rest

/-- Starts the lazy capture: the dot-plus group must consume at least one
character (any non-newline character, including a brace) before the
terminator. -/
def lazyCapture : List Char → Option (List Char)
  | [] => none
  | c :: rest => if c = '\n' then none else lazyGo [c] rest

/-- Embeds re.search for the font-name override tag: a backslash, the
letters fn, a shortest non-empty capture, then a closing brace or
backslash. On a failed attempt the scan advances one character, as the
regex engine does. -/
def fnTag : List Char → Option (List Char)
  | [] => none
  | c :: rest =>
    if c = '\\' then
      match rest with
      | 'f' :: 'n' :: rest2 =>
        match lazyCapture rest2 with
        | some g => some g
        | none => fnTag rest
      | _ => fnTag rest
    else fnTag rest

/-- Embeds re.search for the bold override tag: a backslash, the letter b,
one or more digits, then a closing brace or backslash; returns the parsed
digit group. -/
def boldTag : List Char → Option Nat
  | [] => none
  | c :: rest =>
    if c = '\\' then
      match rest with
      | 'b' :: rest2 =>
        let ds := rest2.takeWhile Char.isDigit
        let after := rest2.dropWhile Char.isDigit
        let ok := !ds.isEmpty && (match after with
          | t :: _ => t = '\x7d' || t = '\\'
          | [] => false)
        if ok then some (digitsToNat ds) else boldTag rest
      | _ => boldTag rest
    else boldTag rest

/-- Embeds re.search for the italic override tag: a backslash, the letter
i, exactly one digit, then a closing brace or backslash. -/
def italicTag : List Char → Option Nat
  | [] => none
  | c :: rest =>
    if c = '\\' then
      match rest with
      | 'i' :: d :: t :: _ =>
        if d.isDigit && (t = '\x7d' || t = '\\') then some (d.toNat - 48) else italicTag rest
      | _ => italicTag rest
    else italicTag rest

/-- Text payload of a dialogue line: comma fields from index 9 on, joined
with the empty string (so the commas themselves are dropped). -/
def dialogueText (c : List Char) : List Char :=
  ((pySplitChars ',' c).drop 9).flatten

/-- Attributes the override tags set active, in the append order of the
source: bold first, then italic; a zero value means force-inactive
instead. -/
def activesOf (d : List Char) : List String :=
  (match boldTag d with
    | some n => if n = 0 then [] else ["bold"]
    | none => []) ++
  (match italicTag d with
    | some n => if n = 0 then [] else ["italic"]
    | none => [])

/-- Attributes the override tags force-deactivate (value zero). -/
def deactivesOf (d : List Char) : List String :=
  (match boldTag d with
    | some n => if n = 0 then ["bold"] else []
    | none => []) ++
  (match italicTag d with
    | some n => if n = 0 then ["italic"] else []
    | none => [])

/-- Embeds the unchecked style lookup of process_dialogue_section: comma
field 3 of the dialogue line, not stripped, matched against the pruned
styles; taking element 0 of the matches raises IndexError when the
referenced style is absent. -/
def lookupStyle (styles : List SubFont) (c : List Char) : Except PyErr SubFont := do
  let sname ← pyGet (pySplitChars ',' c) 3
  pyGet (styles.filter (fun i => i.style == String.mk sname)) 0

/-- Synthetic origin identifier of a dialogue-derived requirement: the word
dialogue, a colon, and the line index zero-padded to five digits. -/
def dialogueOrigin (idx : Nat) : String :=
  String.mk ("dialogue:".data ++
    (List.replicate (5 - (Nat.toDigits 10 idx).length) '0' ++ Nat.toDigits 10 idx))

/-- Models list(set(a).union(b)) up to iteration order: deterministic
first-occurrence enumeration with the same membership. -/
def pySetUnion (a b : List String) : List String := (a ++ b).dedup

/-- Models list(set(a).difference(b)) up to iteration order. -/
def pySetDiff (a b : List String) : List String :=
  a.dedup.filter (fun x => !(b.contains x))

/-- Embeds the per-line body of process_dialogue_section: look the style
up, scan the payload for override tags, and when at least one tag is
present produce the dialogue-derived requirement of the source: the tag
family if present (with the raw active list as subfamily), else the style
family with the union of the actives and the style subfamily when some
attribute is set active, or the difference of the empty active list and
the deactivated attributes otherwise. -/
def processDialogueLine (styles : List SubFont) (idx : Nat) (c : List Char) :
    Except PyErr (Option SubFont) := do
  let style ← lookupStyle styles c
  let d := dialogueText c
  let family? := (fnTag d).map String.mk
  let subfamilies := activesOf d
  let not_subfamilies := deactivesOf d
  if family?.isSome || !subfamilies.isEmpty || !not_subfamilies.isEmpty then
    match family? with
    | some fam => Except.ok (some (SubFont.mk (dialogueOrigin idx) fam subfamilies))
    | none =>
      let subs := if !subfamilies.isEmpty then pySetUnion subfamilies style.subfamily
        else pySetDiff subfamilies not_subfamilies
      Except.ok (some (SubFont.mk (dialogueOrigin idx) style.family subs))
  else Except.ok none

/-- Runs processDialogueLine over the enumerated dialogue lines, keeping
the produced requirements in line order. -/
def processDialogueLines (styles : List SubFont) : Nat → List (List Char) →
    Except PyErr (List SubFont)
  | _, [] => Except.ok []
  | idx, c :: rest => do
    let r ← processDialogueLine styles idx c
    let others ← processDialogueLines styles (idx + 1) rest
    Except.ok (match r with
      | some sf => sf :: others
      | none => others)

/-- Embeds SubParse.process_dialogue_section. -/
def process_dialogue_section (content : List String) (styles : List SubFont) :
    Except PyErr (List SubFont) :=
  processDialogueLines styles 0 (dialogueLines content)

/-- Embeds the SubParse constructor followed by the styles property: the
pruned style requirements concatenated with the dialogue-derived ones. -/
def subparseStyles (content : List String) : Except PyErr (List SubFont) := do
  let s ← process_style_section content
  let d ← process_dialogue_section content s
  Except.ok (s ++ d)

/-- Reports whether a string contains a colon; parsed style names never do,
while every dialogue-derived origin does. -/
def hasColon (s : String) : Bool := decide (':' ∈ s.data)

/-- Sample similarity scorer used for concrete evaluations: one hundred on
equal strings, zero otherwise (a valid SimFn instance; the real scorer is
an external capability). -/
def simSample (a b : String) : Nat := if a = b then 100 else 0

/-- Sample library font used by concrete evaluations. -/
def arialBold : Font := Font.mk "Arial" ["bold"] "Arial Bold" "fonts/ArialBold.ttf"

/-- Sample document: one referenced style, one unreferenced style, one
dialogue line without override tags. -/
def docPruning : List String :=
  ["Style: Default,Arial,20,a,b,c,d,-1,0",
   "Style: Unused,Times,20,a,b,c,d,0,0",
   "Dialogue: 0,t1,t2,Default,,0,0,0,,Hello"]

/-- Sample document: a bold italic style and a dialogue line whose only
override tag forces bold off. -/
def docDeactivate : List String :=
  ["Style: Default,Arial,20,a,b,c,d,-1,-1",
   "Dialogue: 0,t1,t2,Default,,0,0,0,,\x7b\\b0\x7dHi"]

/-- Sample document: the dialogue line references a style name that is not
among the pruned styles. -/
def docMissingStyle : List String :=
  ["Style: Default,Arial,20,a,b,c,d,-1,0",
   "Dialogue: 0,t1,t2,Missing,,0,0,0,,Hello"]

/-- Sample dialogue line whose only override tag sets bold active. -/
def lineBoldOn : List Char := "Dialogue: 0,t1,t2,Default,,0,0,0,,\x7b\\b1\x7dHi".data

theorem mem_of_mem_dropWhile {α : Type} {p : α → Bool} {x : α} :
    ∀ {l : List α}, x ∈ l.dropWhile p → x ∈ l
  | [], h => h
  | a :: l, h => by
    rw [List.dropWhile_cons] at h
    split at h
    · exact List.mem_cons_of_mem a (mem_of_mem_dropWhile h)
    · exact h

theorem mem_of_mem_pyStripChars {x : Char} {l : List Char} (h : x ∈ pyStripChars l) :
    x ∈ l := by
  unfold pyStripChars at h
  rw [List.mem_reverse] at h
  have h2 := mem_of_mem_dropWhile h
  rw [List.mem_reverse] at h2
  exact mem_of_mem_dropWhile h2

theorem pySplitChars_ne_nil (sep : Char) (l : List Char) : pySplitChars sep l ≠ [] := by
  cases l with
  | nil => simp [pySplitChars]
  | cons c rest =>
    unfold pySplitChars
    split
    · simp
    · split <;> simp

theorem sep_not_mem_of_mem_pySplitChars {sep : Char} {p : List Char} :
    ∀ {l : List Char}, p ∈ pySplitChars sep l → sep ∉ p
  | [], h => by
    simp [pySplitChars] at h
    simp [h]
  | c :: rest, h => by
    unfold pySplitChars at h
    by_cases hc : c = sep
    · simp [hc] at h
      rcases h with h | h
      · simp [h]
      · exact sep_not_mem_of_mem_pySplitChars h
    · rcases hrec : pySplitChars sep rest with _ | ⟨q, qs⟩
      · exact absurd hrec (pySplitChars_ne_nil sep rest)
      · rw [if_neg hc, hrec] at h
        simp only [List.mem_cons] at h
        rcases h with h | h
        · have hq : q ∈ pySplitChars sep rest := by rw [hrec]; exact List.mem_cons_self q qs
          have hnq := sep_not_mem_of_mem_pySplitChars hq
          subst h
          intro hmem
          rcases List.mem_cons.mp hmem with h1 | h1
          · exact hc h1.symm
          · exact hnq h1
        · exact sep_not_mem_of_mem_pySplitChars (by rw [hrec]; exact List.mem_cons_of_mem q h)

theorem subset_of_mem_pySplitChars {sep x : Char} {p : List Char} :
    ∀ {l : List Char}, p ∈ pySplitChars sep l → x ∈ p → x ∈ l
  | [], hp, hx => by
    simp [pySplitChars] at hp
    subst hp
    exact absurd hx (List.not_mem_nil x)
  | c :: rest, hp, hx => by
    unfold pySplitChars at hp
    by_cases hc : c = sep
    · simp [hc] at hp
      rcases hp with hp | hp
      · subst hp; exact absurd hx (List.not_mem_nil x)
      · exact List.mem_cons_of_mem c (subset_of_mem_pySplitChars hp hx)
    · rcases hrec : pySplitChars sep rest with _ | ⟨q, qs⟩
      · exact absurd hrec (pySplitChars_ne_nil sep rest)
      · rw [if_neg hc, hrec] at hp
        simp only [List.mem_cons] at hp
        rcases hp with hp | hp
        · subst hp
          rcases List.mem_cons.mp hx with h1 | h1
          · exact h1 ▸ List.mem_cons_self c rest
          · have hq : q ∈ pySplitChars sep rest := by rw [hrec]; exact List.mem_cons_self q qs
            exact List.mem_cons_of_mem c (subset_of_mem_pySplitChars hq h1)
        · have hq : p ∈ pySplitChars sep rest := by rw [hrec]; exact List.mem_cons_of_mem q hp
          exact List.mem_cons_of_mem c (subset_of_mem_pySplitChars hq hx)

theorem pyGet_ok_mem {α : Type} {l : List α} {i : Nat} {a : α} (h : pyGet l i = Except.ok a) :
    a ∈ l := by
  unfold pyGet at h
  rcases hg : l.get? i with _ | b
  · rw [hg] at h; exact absurd h (by simp)
  · rw [hg] at h
    have : a = b := by injection h with h2; exact h2.symm
    subst this
    exact List.get?_mem hg

theorem exceptBind_ok {e a b : Type} (x : a) (f : a → Except e b) :
    (Except.ok x >>= f) = f x := rfl

theorem exceptBind_error {e a b : Type} (err : e) (f : a → Except e b) :
    ((Except.error err : Except e a) >>= f) = Except.error err := rfl

theorem pyFilterM_ok_eq_filter {α : Type} {f : α → Except PyErr Bool} :
    ∀ {l out : List α}, pyFilterM f l = Except.ok out →
      out = l.filter (fun x => decide (f x = Except.ok true))
  | [], out, h => by
    unfold pyFilterM at h
    injection h with h
    rw [← h]
    rfl
  | x :: xs, out, h => by
    unfold pyFilterM at h
    rcases hf : f x with e1 | b
    · rw [hf, exceptBind_error] at h
      exact absurd h (by simp)
    · rw [hf, exceptBind_ok] at h
      rcases hrest : pyFilterM f xs with e1 | rest
      · rw [hrest, exceptBind_error] at h
        exact absurd h (by simp)
      · rw [hrest, exceptBind_ok] at h
        injection h with h
        have hr := pyFilterM_ok_eq_filter hrest
        cases b with
        | true => simp [List.filter_cons, hf, ← h, hr]
        | false => simp [List.filter_cons, hf, ← h, hr]

theorem pyMapM_ok_forall {α β : Type} {f : α → Except PyErr β} :
    ∀ {l : List α} {out : List β}, pyMapM f l = Except.ok out →
      ∀ y ∈ out, ∃ x ∈ l, f x = Except.ok y
  | [], out, h => by
    unfold pyMapM at h
    injection h with h
    rw [← h]
    simp
  | x :: xs, out, h => by
    unfold pyMapM at h
    rcases hf : f x with e1 | b
    · rw [hf, exceptBind_error] at h
      exact absurd h (by simp)
    · rw [hf, exceptBind_ok] at h
      rcases hrest : pyMapM f xs with e1 | rest
      · rw [hrest, exceptBind_error] at h
        exact absurd h (by simp)
      · rw [hrest, exceptBind_ok] at h
        injection h with h
        intro y hy
        rw [← h] at hy
        rcases List.mem_cons.mp hy with hy | hy
        · exact ⟨x, List.mem_cons_self x xs, by rw [hf, hy]⟩
        · rcases pyMapM_ok_forall hrest y hy with ⟨z, hz, hfz⟩
          exact ⟨z, List.mem_cons_of_mem x hz, hfz⟩

theorem pairwise_getLast?_max {r : FontResult} :
    ∀ {l : List FontResult}, l.Pairwise frLE → l.getLast? = some r →
      ∀ x ∈ l, x.totalScore ≤ r.totalScore
  | [], _, hr => by simp at hr
  | [a], _, hr => by
    simp at hr
    intro x hx
    rcases List.mem_singleton.mp hx with rfl
    rw [hr]
  | a :: b :: t, hp, hr => by
    rw [List.getLast?_cons_cons] at hr
    have hp1 := List.pairwise_cons.mp hp
    intro x hx
    rcases List.mem_cons.mp hx with rfl | hx
    · have hrm : r ∈ b :: t := List.mem_of_mem_getLast? hr
      exact hp1.1 r hrm
    · exact pairwise_getLast?_max hp1.2 hr x hx

theorem pySortedLast_eq_none_iff {l : List FontResult} :
    pySortedLast l = none ↔ l = [] := by
  unfold pySortedLast
  rw [List.getLast?_eq_none_iff]
  constructor
  · intro h
    have hlen := (List.perm_insertionSort frLE l).length_eq
    rw [h] at hlen
    exact List.length_eq_zero.mp hlen.symm
  · intro h
    subst h
    rfl

theorem pySortedLast_spec {l : List FontResult} {r : FontResult}
    (h : pySortedLast l = some r) :
    r ∈ l ∧ ∀ x ∈ l, x.totalScore ≤ r.totalScore := by
  unfold pySortedLast at h
  have hperm := List.perm_insertionSort frLE l
  have hmem : r ∈ List.insertionSort frLE l := List.mem_of_mem_getLast? h
  have hsorted : (List.insertionSort frLE l).Pairwise frLE :=
    List.sorted_insertionSort frLE l
  refine ⟨hperm.mem_iff.mp hmem, fun x hx => ?_⟩
  exact pairwise_getLast?_max hsorted h x (hperm.mem_iff.mpr hx)

theorem length_filterMap_mono {α β : Type} {f g : α → Option β}
    (h : ∀ x, (g x).isSome = true → (f x).isSome = true) :
    ∀ l : List α, (l.filterMap g).length ≤ (l.filterMap f).length := by
  intro l
  induction l with
  | nil => simp
  | cons x xs ih =>
    rcases hg : g x with _ | b
    · rcases hf : f x with _ | c
      · simpa [List.filterMap_cons, hg, hf] using ih
      · simp only [List.filterMap_cons, hg, hf]
        exact Nat.le_trans ih (Nat.le_succ _)
    · have : (f x).isSome = true := h x (by rw [hg]; rfl)
      rcases hf : f x with _ | c
      · rw [hf] at this; exact absurd this (by simp)
      · simpa [List.filterMap_cons, hg, hf] using ih

theorem filterMap_nil_mono {α β : Type} {f g : α → Option β} {l : List α}
    (h : ∀ x ∈ l, f x = none → g x = none) (hf : l.filterMap f = []) :
    l.filterMap g = [] := by
  rw [List.filterMap_eq_nil_iff] at hf ⊢
  exact fun x hx => h x hx (hf x hx)

theorem mem_pySetUnion {x : String} {a b : List String} :
    x ∈ pySetUnion a b ↔ x ∈ a ∨ x ∈ b := by
  unfold pySetUnion
  rw [List.mem_dedup, List.mem_append]

theorem pySetDiff_nil (b : List String) : pySetDiff [] b = [] := rfl

theorem scanFullName1_list (fuzz : SimFn) (family : String) (sub : List String) (t : Nat) :
    ∀ lib : List Font, scanFullName1 fuzz family (SubfamilyArg.list sub) t lib =
      Except.ok (fullNameCandidates1 fuzz lib family sub t)
  | [] => rfl
  | font :: rest => by
    have ih := scanFullName1_list fuzz family sub t rest
    unfold scanFullName1
    simp only [capitalizeJoin, exceptBind_ok, ih]
    unfold fullNameCandidates1
    rw [List.filterMap_cons]
    by_cases h : t ≤ fuzz (pyLower (family ++ " " ++ pyJoin " " (List.map pyCapitalize sub)))
      (pyLower font.full_name)
    · simp [h]
    · simp [h]

theorem scanFullName2_list (fuzz : SimFn) (family : String) (sub : List String) (t : Nat) :
    ∀ lib : List Font, scanFullName2 fuzz family (SubfamilyArg.list sub) t lib =
      Except.ok (fullNameCandidates2 fuzz lib family sub t)
  | [] => rfl
  | font :: rest => by
    have ih := scanFullName2_list fuzz family sub t rest
    unfold scanFullName2
    simp only [capitalizeJoin, exceptBind_ok, ih]
    unfold fullNameCandidates2
    rw [List.filterMap_cons]
    by_cases h : t ≤ fuzz (pyLower (family ++ " " ++ pyJoin " " (List.map pyCapitalize sub)))
      (semiStrip font.full_name)
    · simp [h]
    · simp [h]

theorem exceptPure {e a : Type} (x : a) : (pure x : Except e a) = Except.ok x := rfl

theorem find_full_name_list_eq (fuzz : SimFn) (lib : List Font) (family : String)
    (sub : List String) (dg : Bool) (t : Nat) :
    find_font_by_full_name fuzz lib family (SubfamilyArg.list sub) dg t =
      Except.ok (pySortedLast (chosenFullName fuzz lib family sub dg t)) := by
  unfold find_font_by_full_name chosenFullName
  rw [scanFullName1_list, exceptBind_ok]
  by_cases h1 : fullNameCandidates1 fuzz lib family sub t = []
  · rw [h1]
    simp only [List.isEmpty_nil, if_true, ne_eq, not_true_eq_false, if_false]
    rw [scanFullName2_list, exceptBind_ok]
    by_cases h2 : fullNameCandidates2 fuzz lib family sub t = []
    · rw [h2]
      simp only [List.isEmpty_nil, Bool.true_and, ne_eq, not_true_eq_false, if_false]
      cases dg with
      | true =>
        rcases hs : pySortedLast (fullNameCandidates3 fuzz lib family t) with _ | r <;>
          simp [hs, joinCommaArg, exceptBind_ok, exceptPure]
      | false =>
        rcases hs : pySortedLast ([] : List FontResult) with _ | r <;>
          simp [hs, joinCommaArg, exceptBind_ok, exceptPure]
    · have h2e : (fullNameCandidates2 fuzz lib family sub t).isEmpty = false := by
        simp [List.isEmpty_iff, h2]
      rw [h2e]
      simp only [Bool.false_and, if_false, exceptBind_ok, ne_eq, h2, not_false_eq_true, if_true]
      rcases hs : pySortedLast (fullNameCandidates2 fuzz lib family sub t) with _ | r <;>
        simp [hs, joinCommaArg, exceptBind_ok, exceptPure]
  · have h1e : (fullNameCandidates1 fuzz lib family sub t).isEmpty = false := by
      simp [List.isEmpty_iff, h1]
    rw [h1e]
    simp only [if_false, exceptBind_ok, Bool.false_and, ne_eq, h1, not_false_eq_true, if_true]
    rcases hs : pySortedLast (fullNameCandidates1 fuzz lib family sub t) with _ | r <;>
      simp [hs, joinCommaArg, exceptBind_ok, exceptPure, h1]

/-- Claim C6: the FontResult comparison operators agree exactly with the
comparison of the keys family score times one thousand plus subfamily
score, any two results are related by lt, eq or gt, equal family scores
leave the subfamily score as tie-break, and for subfamily scores within
the documented zero to one hundred range the family score dominates. -/
theorem fontresult_order_matches_key (a b : FontResult) :
    (a.ltB b = true ↔
      a.family_match_score * 1000 + a.subfamily_match_score <
        b.family_match_score * 1000 + b.subfamily_match_score) ∧
    (a.eqB b = true ↔
      a.family_match_score * 1000 + a.subfamily_match_score =
        b.family_match_score * 1000 + b.subfamily_match_score) ∧
    (a.gtB b = true ↔
      b.family_match_score * 1000 + b.subfamily_match_score <
        a.family_match_score * 1000 + a.subfamily_match_score) ∧
    (a.leB b = true ↔
      a.family_match_score * 1000 + a.subfamily_match_score ≤
        b.family_match_score * 1000 + b.subfamily_match_score) ∧
    (a.geB b = true ↔
      b.family_match_score * 1000 + b.subfamily_match_score ≤
        a.family_match_score * 1000 + a.subfamily_match_score) ∧
    (a.neB b = true ↔
      ¬ a.family_match_score * 1000 + a.subfamily_match_score =
        b.family_match_score * 1000 + b.subfamily_match_score) ∧
    (a.ltB b = true ∨ a.eqB b = true ∨ a.gtB b = true) ∧
    (a.family_match_score = b.family_match_score →
      (a.ltB b = true ↔ a.subfamily_match_score < b.subfamily_match_score)) ∧
    (a.subfamily_match_score ≤ 100 → a.family_match_score < b.family_match_score →
      a.ltB b = true) := by
  refine ⟨?_, ?_, ?_, ?_, ?_, ?_, ?_, ?_, ?_⟩ <;>
    simp only [FontResult.ltB, FontResult.eqB, FontResult.gtB, FontResult.leB,
      FontResult.geB, FontResult.neB, FontResult.totalScore, decide_eq_true_eq] <;>
    omega

/-- Sample FontResult values used by the ordering witness. -/
theorem fontresult_order_matches_key_witness :
    (FontResult.mk arialBold 90 50 false).ltB (FontResult.mk arialBold 91 0 false) = true :=
  (fontresult_order_matches_key (FontResult.mk arialBold 90 50 false)
    (FontResult.mk arialBold 91 0 false)).2.2.2.2.2.2.2.2 (by decide) (by decide)

/-- Claim C9: the Font equality method always raises AttributeError,
because it reads the attribute full_path while the dataclass declares
font_path; it never returns the boolean path comparison the specification
describes. Hashing by full_name does hold. -/
theorem font_eq_raises_attribute_error :
    (∀ a b : Font, Font.eq a b = Except.error (PyErr.attributeError "full_path")) ∧
    Font.eq arialBold arialBold = Except.error (PyErr.attributeError "full_path") ∧
    (∀ f : Font, Font.hash f = String.hash f.full_name) :=
  ⟨fun _ _ => rfl, rfl, fun _ => rfl⟩

/-- Claim C1: with ignore_regular false (the default), the whole matching
body of find_font_by_families sits under the if ignore_regular line, so
the method returns none for every library and threshold, even when a font
clears the family threshold, as the concrete evaluation shows. -/
theorem find_families_ignore_regular_false_none :
    (∀ (fuzz : SimFn) (lib : List Font) (family : String) (sub : List String)
      (dg : Bool) (t : Nat),
      find_font_by_families fuzz lib family (SubfamilyArg.list sub) false dg t =
        Except.ok none) ∧
    find_font_by_families simSample [arialBold] "Arial" (SubfamilyArg.list ["bold"])
      false false 90 = Except.ok none ∧
    90 ≤ simSample "Arial" arialBold.family :=
  ⟨fun _ _ _ _ _ _ => rfl, rfl, by decide⟩

/-- Claim C10 counterexample: with an empty library and a str subfamily
argument, find_font_by_full_name raises TypeError while joining the
wrapped list for the warning message, not the AttributeError the claim
states for every such call. -/
theorem full_name_str_empty_library_type_error :
    find_font_by_full_name simSample [] "Arial" (SubfamilyArg.str "bold") false 90 =
      Except.error (PyErr.typeError "join") ∧
    find_font_by_full_name simSample [] "Arial" (SubfamilyArg.str "bold") false 90 ≠
      Except.error (PyErr.attributeError "capitalize") :=
  ⟨rfl, by decide⟩

/-- Claim C10 amended: a str subfamily argument never produces a result;
the call raises AttributeError when the library is non-empty (capitalize
applied to the wrapped token list) and TypeError when the library is empty
(comma-joining the wrapped token list in the warning path). -/
theorem full_name_str_subfamily_raises (fuzz : SimFn) (lib : List Font)
    (family s : String) (dg : Bool) (t : Nat) :
    (lib = [] → find_font_by_full_name fuzz lib family (SubfamilyArg.str s) dg t =
      Except.error (PyErr.typeError "join")) ∧
    (lib ≠ [] → find_font_by_full_name fuzz lib family (SubfamilyArg.str s) dg t =
      Except.error (PyErr.attributeError "capitalize")) := by
  constructor
  · intro h
    subst h
    cases dg <;> rfl
  · intro h
    rcases lib with _ | ⟨font, rest⟩
    · exact absurd rfl h
    · rfl

/-- Concrete instantiation of the amended claim C10. -/
theorem full_name_str_subfamily_raises_witness :
    ([arialBold] ≠ ([] : List Font)) ∧
    find_font_by_full_name simSample [arialBold] "Arial" (SubfamilyArg.str "bold") false 90 =
      Except.error (PyErr.attributeError "capitalize") :=
  ⟨by decide,
    (full_name_str_subfamily_raises simSample [arialBold] "Arial" "bold" false 90).2
      (by decide)⟩

/-- Claim C3: parsing a document whose dialogue line references a style
name absent from the pruned style list fails with a bare IndexError from
the unchecked first-match lookup, not with an explicit reported
referential-integrity error. -/
theorem missing_style_reference_index_error :
    subparseStyles docMissingStyle = Except.error PyErr.indexError := by
  rfl

theorem mem_fullNameCandidates3_flags {fuzz : SimFn} {lib : List Font} {family : String}
    {t : Nat} {r : FontResult} (h : r ∈ fullNameCandidates3 fuzz lib family t) :
    r.downgrade = true ∧ r.subfamily_match_score = 0 := by
  unfold fullNameCandidates3 at h
  rcases List.mem_filterMap.mp h with ⟨font, _, hf⟩
  by_cases hc : t ≤ fuzz (pyLower family) (pyLower font.full_name)
  · rw [if_pos hc] at hf
    injection hf with hf
    rw [← hf]
    exact ⟨rfl, rfl⟩
  · rw [if_neg hc] at hf
    exact absurd hf (by simp)

theorem mem_fullNameCandidates1_flag {fuzz : SimFn} {lib : List Font} {family : String}
    {sub : List String} {t : Nat} {r : FontResult}
    (h : r ∈ fullNameCandidates1 fuzz lib family sub t) : r.downgrade = false := by
  unfold fullNameCandidates1 at h
  rcases List.mem_filterMap.mp h with ⟨font, _, hf⟩
  by_cases hc : t ≤ fuzz (pyLower (family ++ " " ++ pyJoin " " (sub.map pyCapitalize)))
    (pyLower font.full_name)
  · rw [if_pos hc] at hf
    injection hf with hf
    rw [← hf]
  · rw [if_neg hc] at hf
    exact absurd hf (by simp)

theorem mem_fullNameCandidates2_flag {fuzz : SimFn} {lib : List Font} {family : String}
    {sub : List String} {t : Nat} {r : FontResult}
    (h : r ∈ fullNameCandidates2 fuzz lib family sub t) : r.downgrade = false := by
  unfold fullNameCandidates2 at h
  rcases List.mem_filterMap.mp h with ⟨font, _, hf⟩
  by_cases hc : t ≤ fuzz (pyLower (family ++ " " ++ pyJoin " " (sub.map pyCapitalize)))
    (semiStrip font.full_name)
  · rw [if_pos hc] at hf
    injection hf with hf
    rw [← hf]
  · rw [if_neg hc] at hf
    exact absurd hf (by simp)

/-- Claim C4: find_font_by_full_name applies the three tiers in order,
where each later tier is attempted only if the previous tier produced no
candidate clearing the threshold (the chosenFullName list encodes exactly
this gating over the three tier candidate lists), and the method returns
the maximum-ranked FontResult of the candidate list of whichever tier
applies, or none exactly when that list is empty. -/
theorem full_name_three_tier_max (fuzz : SimFn) (lib : List Font) (family : String)
    (sub : List String) (dg : Bool) (t : Nat) :
    ∃ res, find_font_by_full_name fuzz lib family (SubfamilyArg.list sub) dg t =
        Except.ok res ∧
      (res = none ↔ chosenFullName fuzz lib family sub dg t = []) ∧
      (∀ r, res = some r → r ∈ chosenFullName fuzz lib family sub dg t ∧
        ∀ x ∈ chosenFullName fuzz lib family sub dg t, x.totalScore ≤ r.totalScore) := by
  refine ⟨pySortedLast (chosenFullName fuzz lib family sub dg t),
    find_full_name_list_eq fuzz lib family sub dg t, ?_, ?_⟩
  · constructor
    · intro h
      exact pySortedLast_eq_none_iff.mp h
    · intro h
      exact pySortedLast_eq_none_iff.mpr h
  · intro r hr
    exact pySortedLast_spec hr

/-- Concrete instantiation of claim C4. -/
theorem full_name_three_tier_max_witness :
    ∃ res, find_font_by_full_name simSample [arialBold] "Arial"
        (SubfamilyArg.list ["bold"]) false 90 = Except.ok res ∧
      (res = none ↔ chosenFullName simSample [arialBold] "Arial" ["bold"] false 90 = []) ∧
      (∀ r, res = some r → r ∈ chosenFullName simSample [arialBold] "Arial" ["bold"] false 90 ∧
        ∀ x ∈ chosenFullName simSample [arialBold] "Arial" ["bold"] false 90,
          x.totalScore ≤ r.totalScore) :=
  full_name_three_tier_max simSample [arialBold] "Arial" ["bold"] false 90

/-- Claim C5: the downgrade tier of find_font_by_full_name contributes
only results flagged downgrade with subfamily score zero, the two
non-downgrade tiers contribute only results with downgrade false, and a
downgraded result is returned only when both non-downgrade tiers produced
zero candidates clearing the threshold and downgrading was allowed. -/
theorem full_name_downgrade_semantics (fuzz : SimFn) (lib : List Font) (family : String)
    (sub : List String) (dg : Bool) (t : Nat) :
    (∀ r ∈ fullNameCandidates3 fuzz lib family t,
      r.downgrade = true ∧ r.subfamily_match_score = 0) ∧
    (∀ r ∈ fullNameCandidates1 fuzz lib family sub t, r.downgrade = false) ∧
    (∀ r ∈ fullNameCandidates2 fuzz lib family sub t, r.downgrade = false) ∧
    (∀ r, find_font_by_full_name fuzz lib family (SubfamilyArg.list sub) dg t =
        Except.ok (some r) → r.downgrade = true →
      fullNameCandidates1 fuzz lib family sub t = [] ∧
      fullNameCandidates2 fuzz lib family sub t = [] ∧
      dg = true ∧ r ∈ fullNameCandidates3 fuzz lib family t) := by
  refine ⟨fun r hr => mem_fullNameCandidates3_flags hr,
    fun r hr => mem_fullNameCandidates1_flag hr,
    fun r hr => mem_fullNameCandidates2_flag hr, ?_⟩
  intro r hr hdg
  rw [find_full_name_list_eq] at hr
  injection hr with hr
  have hmem := (pySortedLast_spec hr).1
  unfold chosenFullName at hmem
  by_cases h1 : fullNameCandidates1 fuzz lib family sub t = []
  · rw [if_neg (by simp [h1])] at hmem
    by_cases h2 : fullNameCandidates2 fuzz lib family sub t = []
    · rw [if_neg (by simp [h2])] at hmem
      cases dg with
      | true =>
        rw [if_pos rfl] at hmem
        exact ⟨h1, h2, rfl, hmem⟩
      | false =>
        rw [if_neg (by simp)] at hmem
        exact absurd hmem (List.not_mem_nil r)
    · rw [if_pos h2] at hmem
      have := mem_fullNameCandidates2_flag hmem
      rw [hdg] at this
      exact absurd this (by simp)
  · rw [if_pos h1] at hmem
    have := mem_fullNameCandidates1_flag hmem
    rw [hdg] at this
    exact absurd this (by simp)

/-- Concrete instantiation of claim C5. -/
theorem full_name_downgrade_semantics_witness :
    (∀ r ∈ fullNameCandidates3 simSample [arialBold] "Arial" 90,
      r.downgrade = true ∧ r.subfamily_match_score = 0) ∧
    (∀ r ∈ fullNameCandidates1 simSample [arialBold] "Arial" ["bold"] 90,
      r.downgrade = false) ∧
    (∀ r ∈ fullNameCandidates2 simSample [arialBold] "Arial" ["bold"] 90,
      r.downgrade = false) ∧
    (∀ r, find_font_by_full_name simSample [arialBold] "Arial"
        (SubfamilyArg.list ["bold"]) true 90 = Except.ok (some r) → r.downgrade = true →
      fullNameCandidates1 simSample [arialBold] "Arial" ["bold"] 90 = [] ∧
      fullNameCandidates2 simSample [arialBold] "Arial" ["bold"] 90 = [] ∧
      true = true ∧ r ∈ fullNameCandidates3 simSample [arialBold] "Arial" 90) :=
  full_name_downgrade_semantics simSample [arialBold] "Arial" ["bold"] true 90

/-- Claim C2 counterexample: in docDeactivate the referenced style has
subfamily bold and italic and the dialogue line carries only the tag
forcing bold off; the claim predicts the subfamily italic (the style
subfamily minus the deactivated attributes), but the code subtracts the
deactivated attributes from the empty set and yields the empty subfamily. -/
theorem dialogue_deactivation_counterexample :
    subparseStyles docDeactivate = Except.ok
      [SubFont.mk "Default" "Arial" ["bold", "italic"],
       SubFont.mk "dialogue:00000" "Arial" []] ∧
    "italic" ∈ (["bold", "italic"] : List String) ∧
    "italic" ∉ ([] : List String) :=
  ⟨rfl, by decide, by decide⟩

/-- Claim C2 amended: for a dialogue line carrying at least one override
tag, with the referenced style resolving to st: the family is the tag
family if present, else the style family. The subfamily is the raw list of
tag-activated attributes when a tag family is present; when no tag family
is present it is the union of the activated attributes with the style
subfamily if some attribute is activated, and empty if only deactivations
occur, because the deactivated attributes are subtracted from the empty
set rather than from the style subfamily. -/
theorem dialogue_override_resolution (styles : List SubFont) (idx : Nat) (c : List Char)
    (st : SubFont) (hst : lookupStyle styles c = Except.ok st)
    (htag : (fnTag (dialogueText c)).isSome = true ∨ activesOf (dialogueText c) ≠ [] ∨
      deactivesOf (dialogueText c) ≠ []) :
    ∃ sf, processDialogueLine styles idx c = Except.ok (some sf) ∧
      sf.style = dialogueOrigin idx ∧
      sf.family = ((fnTag (dialogueText c)).map String.mk).getD st.family ∧
      (∀ g, fnTag (dialogueText c) = some g → sf.subfamily = activesOf (dialogueText c)) ∧
      (fnTag (dialogueText c) = none → activesOf (dialogueText c) ≠ [] →
        ∀ x, x ∈ sf.subfamily ↔ (x ∈ activesOf (dialogueText c) ∨ x ∈ st.subfamily)) ∧
      (fnTag (dialogueText c) = none → activesOf (dialogueText c) = [] →
        sf.subfamily = []) := by
  unfold processDialogueLine
  rw [hst, exceptBind_ok]
  rcases hfn : fnTag (dialogueText c) with _ | g
  · by_cases hA : activesOf (dialogueText c) = []
    · have hD : deactivesOf (dialogueText c) ≠ [] := by
        rcases htag with h | h | h
        · rw [hfn] at h
          exact absurd h (by simp)
        · exact absurd hA h
        · exact h
      refine ⟨SubFont.mk (dialogueOrigin idx) st.family
        (pySetDiff (activesOf (dialogueText c)) (deactivesOf (dialogueText c))), ?_, rfl,
        by simp [hfn], by simp [hfn], ?_, ?_⟩
      · simp [hfn, hA, hD]
      · intro _ hne
        exact absurd hA hne
      · intro _ _
        rw [hA, pySetDiff_nil]
    · refine ⟨SubFont.mk (dialogueOrigin idx) st.family
        (pySetUnion (activesOf (dialogueText c)) st.subfamily), ?_, rfl,
        by simp [hfn], by simp [hfn], ?_, ?_⟩
      · simp [hfn, hA]
      · intro _ _ x
        exact mem_pySetUnion
      · intro _ h1
        exact absurd h1 hA
  · refine ⟨SubFont.mk (dialogueOrigin idx) (String.mk g) (activesOf (dialogueText c)),
      ?_, rfl, by simp [hfn], ?_, ?_, ?_⟩
    · simp [hfn]
    · intro g2 hg
      rfl
    · intro h1
      exact absurd h1 (by simp)
    · intro h1
      exact absurd h1 (by simp)

/-- Concrete instantiation of the amended claim C2: a dialogue line with
only the bold-on tag over a style whose subfamily is italic. -/
theorem dialogue_override_resolution_witness :
    ∃ sf, processDialogueLine [SubFont.mk "Default" "Arial" ["italic"]] 0 lineBoldOn =
        Except.ok (some sf) ∧
      sf.style = dialogueOrigin 0 ∧
      sf.family = ((fnTag (dialogueText lineBoldOn)).map String.mk).getD
        (SubFont.mk "Default" "Arial" ["italic"]).family ∧
      (∀ g, fnTag (dialogueText lineBoldOn) = some g →
        sf.subfamily = activesOf (dialogueText lineBoldOn)) ∧
      (fnTag (dialogueText lineBoldOn) = none → activesOf (dialogueText lineBoldOn) ≠ [] →
        ∀ x, x ∈ sf.subfamily ↔ (x ∈ activesOf (dialogueText lineBoldOn) ∨
          x ∈ (SubFont.mk "Default" "Arial" ["italic"]).subfamily)) ∧
      (fnTag (dialogueText lineBoldOn) = none → activesOf (dialogueText lineBoldOn) = [] →
        sf.subfamily = []) :=
  dialogue_override_resolution [SubFont.mk "Default" "Arial" ["italic"]] 0 lineBoldOn
    (SubFont.mk "Default" "Arial" ["italic"]) (by rfl)
    (Or.inr (Or.inl (by decide)))

theorem parseStyleLine_no_colon {line : List Char} {r : SubFont}
    (h : parseStyleLine line = Except.ok r) : hasColon r.style = false := by
  unfold parseStyleLine at h
  rcases h0 : pyGet (pySplitChars ':' line) 1 with e | seg
  · rw [h0, exceptBind_error] at h
    exact absurd h (by simp)
  · rw [h0, exceptBind_ok] at h
    rcases h1 : pyGet (pySplitChars ',' seg) 0 with e | f0
    · rw [h1, exceptBind_error] at h
      exact absurd h (by simp)
    · rw [h1, exceptBind_ok] at h
      rcases h2 : pyGet (pySplitChars ',' seg) 1 with e | f1
      · rw [h2, exceptBind_error] at h
        exact absurd h (by simp)
      · rw [h2, exceptBind_ok] at h
        rcases h3 : pyGet (pySplitChars ',' seg) 7 with e | fb
        · rw [h3, exceptBind_error] at h
          exact absurd h (by simp)
        · rw [h3, exceptBind_ok] at h
          rcases h4 : pyGet (pySplitChars ',' seg) 8 with e | fi
          · rw [h4, exceptBind_error] at h
            exact absurd h (by simp)
          · rw [h4, exceptBind_ok] at h
            injection h with h
            have hseg := pyGet_ok_mem h0
            have hnc : ':' ∉ seg := sep_not_mem_of_mem_pySplitChars hseg
            have hf0 := pyGet_ok_mem h1
            rw [← h]
            simp only [hasColon]
            rw [decide_eq_false_iff_not]
            intro hmem
            exact hnc (subset_of_mem_pySplitChars hf0 (mem_of_mem_pyStripChars hmem))

theorem rawStyles_no_colon {content : List String} {raw : List SubFont}
    (h : rawStyles content = Except.ok raw) : ∀ r ∈ raw, hasColon r.style = false := by
  intro r hr
  rcases pyMapM_ok_forall h r hr with ⟨line, _, hline⟩
  exact parseStyleLine_no_colon hline

theorem dialogueOrigin_hasColon (idx : Nat) : hasColon (dialogueOrigin idx) = true := by
  simp only [hasColon, dialogueOrigin, decide_eq_true_eq]
  exact List.mem_append_left _ (by decide)

theorem processDialogueLine_some_origin {styles : List SubFont} {idx : Nat} {c : List Char}
    {sf : SubFont} (h : processDialogueLine styles idx c = Except.ok (some sf)) :
    sf.style = dialogueOrigin idx := by
  unfold processDialogueLine at h
  rcases hst : lookupStyle styles c with e | st
  · rw [hst, exceptBind_error] at h
    exact absurd h (by simp)
  · rw [hst, exceptBind_ok] at h
    rcases hfn : fnTag (dialogueText c) with _ | g
    · simp only [hfn, Option.map_none] at h
      split at h
      · injection h with h
        injection h with h
        rw [← h]
      · injection h with h
        exact absurd h (by simp)
    · simp only [hfn, Option.map_some] at h
      split at h
      · injection h with h
        injection h with h
        rw [← h]
      · injection h with h
        exact absurd h (by simp)

theorem processDialogueLines_origin_colon {styles : List SubFont} :
    ∀ {i : Nat} {ds : List (List Char)} {dd : List SubFont},
      processDialogueLines styles i ds = Except.ok dd →
      ∀ x ∈ dd, hasColon x.style = true
  | _, [], dd, h => by
    unfold processDialogueLines at h
    injection h with h
    rw [← h]
    simp
  | i, c :: rest, dd, h => by
    unfold processDialogueLines at h
    rcases hr : processDialogueLine styles i c with e | r
    · rw [hr, exceptBind_error] at h
      exact absurd h (by simp)
    · rw [hr, exceptBind_ok] at h
      rcases ho : processDialogueLines styles (i + 1) rest with e | others
      · rw [ho, exceptBind_error] at h
        exact absurd h (by simp)
      · rw [ho, exceptBind_ok] at h
        rcases r with _ | sf
        · injection h with h
          rw [← h]
          exact processDialogueLines_origin_colon ho
        · injection h with h
          intro x hx
          rw [← h] at hx
          rcases List.mem_cons.mp hx with rfl | hx2
          · rw [processDialogueLine_some_origin hr]
            exact dialogueOrigin_hasColon i
          · exact processDialogueLines_origin_colon ho x hx2

/-- Claim C7: the styles output is exactly the pruned style requirements in
file order (the parsed styles kept by the reference filter, in order)
followed by the dialogue-derived requirements in line order, and a style
never referenced by any dialogue line is absent from the whole output. -/
theorem styles_output_pruned_concat (content : List String) (raw ss dd : List SubFont)
    (hraw : rawStyles content = Except.ok raw)
    (hss : process_style_section content = Except.ok ss)
    (hdd : process_dialogue_section content ss = Except.ok dd) :
    subparseStyles content = Except.ok (ss ++ dd) ∧
    ss = raw.filter (fun r => decide (findRef r (dialogueLines content) = Except.ok true)) ∧
    (∀ r ∈ raw, findRef r (dialogueLines content) = Except.ok false → r ∉ ss ++ dd) := by
  have hfil : pyFilterM (fun r => findRef r (dialogueLines content)) raw = Except.ok ss := by
    unfold process_style_section at hss
    rw [hraw, exceptBind_ok] at hss
    exact hss
  refine ⟨?_, pyFilterM_ok_eq_filter hfil, ?_⟩
  · unfold subparseStyles
    rw [hss, exceptBind_ok, hdd, exceptBind_ok]
  · intro r hr hfalse
    rw [List.mem_append]
    rintro (hmem | hmem)
    · rw [pyFilterM_ok_eq_filter hfil] at hmem
      have hp := (List.mem_filter.mp hmem).2
      rw [decide_eq_true_eq, hfalse] at hp
      exact absurd hp (by simp)
    · have h1 : hasColon r.style = true :=
        processDialogueLines_origin_colon hdd r hmem
      have h2 : hasColon r.style = false := rawStyles_no_colon hraw r hr
      rw [h1] at h2
      exact absurd h2 (by simp)

/-- Concrete instantiation of claim C7 on docPruning: the unreferenced
style Unused is pruned from the output. -/
theorem styles_output_pruned_concat_witness :
    subparseStyles docPruning = Except.ok
      ([SubFont.mk "Default" "Arial" ["bold"]] ++ []) ∧
    [SubFont.mk "Default" "Arial" ["bold"]] =
      ([SubFont.mk "Default" "Arial" ["bold"], SubFont.mk "Unused" "Times" []]).filter
        (fun r => decide (findRef r (dialogueLines docPruning) = Except.ok true)) ∧
    (∀ r ∈ [SubFont.mk "Default" "Arial" ["bold"], SubFont.mk "Unused" "Times" []],
      findRef r (dialogueLines docPruning) = Except.ok false →
      r ∉ [SubFont.mk "Default" "Arial" ["bold"]] ++ []) :=
  styles_output_pruned_concat docPruning
    [SubFont.mk "Default" "Arial" ["bold"], SubFont.mk "Unused" "Times" []]
    [SubFont.mk "Default" "Arial" ["bold"]] [] rfl rfl rfl

theorem fullNameCandidates1_mono_nil {fuzz : SimFn} {lib : List Font} {family : String}
    {sub : List String} {t1 t2 : Nat} (hle : t1 ≤ t2)
    (h : fullNameCandidates1 fuzz lib family sub t1 = []) :
    fullNameCandidates1 fuzz lib family sub t2 = [] := by
  unfold fullNameCandidates1 at h ⊢
  refine filterMap_nil_mono (fun font _ hf => ?_) h
  by_cases hc : t2 ≤ fuzz (pyLower (family ++ " " ++ pyJoin " " (sub.map pyCapitalize)))
    (pyLower font.full_name)
  · rw [if_pos (Nat.le_trans hle hc)] at hf
    exact absurd hf (by simp)
  · rw [if_neg hc]

theorem fullNameCandidates2_mono_nil {fuzz : SimFn} {lib : List Font} {family : String}
    {sub : List String} {t1 t2 : Nat} (hle : t1 ≤ t2)
    (h : fullNameCandidates2 fuzz lib family sub t1 = []) :
    fullNameCandidates2 fuzz lib family sub t2 = [] := by
  unfold fullNameCandidates2 at h ⊢
  refine filterMap_nil_mono (fun font _ hf => ?_) h
  by_cases hc : t2 ≤ fuzz (pyLower (family ++ " " ++ pyJoin " " (sub.map pyCapitalize)))
    (semiStrip font.full_name)
  · rw [if_pos (Nat.le_trans hle hc)] at hf
    exact absurd hf (by simp)
  · rw [if_neg hc]

theorem fullNameCandidates3_mono_nil {fuzz : SimFn} {lib : List Font} {family : String}
    {t1 t2 : Nat} (hle : t1 ≤ t2)
    (h : fullNameCandidates3 fuzz lib family t1 = []) :
    fullNameCandidates3 fuzz lib family t2 = [] := by
  unfold fullNameCandidates3 at h ⊢
  refine filterMap_nil_mono (fun font _ hf => ?_) h
  by_cases hc : t2 ≤ fuzz (pyLower family) (pyLower font.full_name)
  · rw [if_pos (Nat.le_trans hle hc)] at hf
    exact absurd hf (by simp)
  · rw [if_neg hc]

theorem chosenFullName_eq_nil {fuzz : SimFn} {lib : List Font} {family : String}
    {sub : List String} {dg : Bool} {t : Nat}
    (h : chosenFullName fuzz lib family sub dg t = []) :
    fullNameCandidates1 fuzz lib family sub t = [] ∧
    fullNameCandidates2 fuzz lib family sub t = [] ∧
    (dg = true → fullNameCandidates3 fuzz lib family t = []) := by
  unfold chosenFullName at h
  by_cases h1 : fullNameCandidates1 fuzz lib family sub t = []
  · rw [if_neg (by simp [h1])] at h
    by_cases h2 : fullNameCandidates2 fuzz lib family sub t = []
    · rw [if_neg (by simp [h2])] at h
      cases dg with
      | true => exact ⟨h1, h2, fun _ => by rw [if_pos rfl] at h; exact h⟩
      | false => exact ⟨h1, h2, fun hdg => absurd hdg (by simp)⟩
    · rw [if_pos h2] at h
      exact absurd h h2
  · rw [if_pos h1] at h
    exact absurd h h1

theorem full_name_none_mono {fuzz : SimFn} {lib : List Font} {family : String}
    {sub : List String} {dg : Bool} {t1 t2 : Nat} (hle : t1 ≤ t2)
    (h : find_font_by_full_name fuzz lib family (SubfamilyArg.list sub) dg t1 =
      Except.ok none) :
    find_font_by_full_name fuzz lib family (SubfamilyArg.list sub) dg t2 =
      Except.ok none := by
  rw [find_full_name_list_eq] at h ⊢
  injection h with h
  rw [pySortedLast_eq_none_iff] at h
  rcases chosenFullName_eq_nil h with ⟨h1, h2, h3⟩
  have g1 := fullNameCandidates1_mono_nil hle h1
  have g2 := fullNameCandidates2_mono_nil hle h2
  have hch : chosenFullName fuzz lib family sub dg t2 = [] := by
    unfold chosenFullName
    rw [if_neg (by simp [g1]), if_neg (by simp [g2])]
    cases dg with
    | true => rw [if_pos rfl]; exact fullNameCandidates3_mono_nil hle (h3 rfl)
    | false => rw [if_neg (by simp)]
  rw [hch]
  rfl

theorem famCandidates_mono_nil {fuzz : SimFn} {lib : List Font} {family : String}
    {sub : List String} {t1 t2 : Nat} (hle : t1 ≤ t2)
    (h : famCandidates fuzz lib family sub t1 = []) :
    famCandidates fuzz lib family sub t2 = [] := by
  unfold famCandidates at h ⊢
  refine filterMap_nil_mono (fun p _ hf => ?_) h
  by_cases hc : t2 ≤ p.2.1
  · rw [if_pos (Nat.le_trans hle hc)] at hf
    exact absurd hf (by simp)
  · rw [if_neg hc]

theorem find_families_true_eq (fuzz : SimFn) (lib : List Font) (family : String)
    (sub : List String) (dg : Bool) (t : Nat) :
    find_font_by_families fuzz lib family (SubfamilyArg.list sub) true dg t =
      famResolved fuzz lib family sub dg t >>= fun results =>
        Except.ok (pySortedLast results) := rfl

theorem find_families_none_mono {fuzz : SimFn} {lib : List Font} {family : String}
    {sub : List String} {ir dg : Bool} {t1 t2 : Nat} (hle : t1 ≤ t2)
    (h : find_font_by_families fuzz lib family (SubfamilyArg.list sub) ir dg t1 =
      Except.ok none) :
    find_font_by_families fuzz lib family (SubfamilyArg.list sub) ir dg t2 =
      Except.ok none := by
  cases ir with
  | false => rfl
  | true =>
    rw [find_families_true_eq] at h ⊢
    rcases hr : famResolved fuzz lib family sub dg t1 with e | res
    · rw [hr, exceptBind_error] at h
      exact absurd h (by simp)
    · rw [hr, exceptBind_ok] at h
      injection h with h
      rw [pySortedLast_eq_none_iff] at h
      subst h
      unfold famResolved at hr
      by_cases hc1 : famCandidates fuzz lib family sub t1 = []
      · have hc2 := famCandidates_mono_nil hle hc1
        cases dg with
        | false =>
          have hres2 : famResolved fuzz lib family sub false t2 = Except.ok [] := by
            unfold famResolved
            rw [Bool.and_false]
            rw [if_neg (by simp)]
            rw [hc2]
          rw [hres2, exceptBind_ok]
          rfl
        | true =>
          simp only [hc1, List.isEmpty_nil, Bool.and_true, if_true] at hr
          rcases hlast : (famScores fuzz lib family (pyJoin " " (stripBI sub))).getLast?
            with _ | p
          · simp only [hlast] at hr
            exact absurd hr (by simp)
          · simp only [hlast] at hr
            by_cases hfs : t1 ≤ fuzz family p.1.family
            · rw [if_pos hfs] at hr
              injection hr with hr
              exact absurd hr (by simp)
            · have hres2 : famResolved fuzz lib family sub true t2 = Except.ok [] := by
                unfold famResolved
                rw [hc2]
                simp only [List.isEmpty_nil, Bool.and_true, if_true, hlast]
                rw [if_neg (fun hcon => hfs (Nat.le_trans hle hcon))]
              rw [hres2, exceptBind_ok]
              rfl
      · have hne : (famCandidates fuzz lib family sub t1).isEmpty = false := by
          simp [List.isEmpty_iff, hc1]
        rw [hne, Bool.false_and, if_neg (by simp)] at hr
        injection hr with hr
        exact absurd hr hc1

/-- Claim C8: for a fixed library and requirement, raising the threshold
never increases the candidate count: find_font_by_family returns a list no
longer at the higher threshold, and for the two optional finders a none
result at the lower threshold forces none at the higher threshold. -/
theorem threshold_monotonicity (fuzz : SimFn) (lib : List Font) (family : String)
    (sub : List String) (ir dg : Bool) (t1 t2 : Nat) (hle : t1 ≤ t2) :
    (find_font_by_family fuzz lib family t2).length ≤
      (find_font_by_family fuzz lib family t1).length ∧
    (find_font_by_full_name fuzz lib family (SubfamilyArg.list sub) dg t1 =
        Except.ok none →
      find_font_by_full_name fuzz lib family (SubfamilyArg.list sub) dg t2 =
        Except.ok none) ∧
    (find_font_by_families fuzz lib family (SubfamilyArg.list sub) ir dg t1 =
        Except.ok none →
      find_font_by_families fuzz lib family (SubfamilyArg.list sub) ir dg t2 =
        Except.ok none) := by
  refine ⟨?_, fun h => full_name_none_mono hle h, fun h => find_families_none_mono hle h⟩
  unfold find_font_by_family pySortedDesc
  rw [(List.perm_insertionSort frGE _).length_eq, (List.perm_insertionSort frGE _).length_eq]
  refine length_filterMap_mono (fun font hsome => ?_) lib
  by_cases hc : t2 ≤ fuzz family font.family
  · rw [if_pos (Nat.le_trans hle hc)]
    rfl
  · rw [if_neg hc] at hsome
    exact absurd hsome (by simp)

/-- Concrete instantiation of claim C8 at thresholds fifty and ninety. -/
theorem threshold_monotonicity_witness :
    (find_font_by_family simSample [arialBold] "Arial" 90).length ≤
      (find_font_by_family simSample [arialBold] "Arial" 50).length ∧
    (find_font_by_full_name simSample [arialBold] "Arial" (SubfamilyArg.list ["bold"])
        true 50 = Except.ok none →
      find_font_by_full_name simSample [arialBold] "Arial" (SubfamilyArg.list ["bold"])
        true 90 = Except.ok none) ∧
    (find_font_by_families simSample [arialBold] "Arial" (SubfamilyArg.list ["bold"])
        true true 50 = Except.ok none →
      find_font_by_families simSample [arialBold] "Arial" (SubfamilyArg.list ["bold"])
        true true 90 = Except.ok none) :=
  threshold_monotonicity simSample [arialBold] "Arial" ["bold"] true true 50 90 (by decide)
